import Mathlib

/-!
Shallow embedding of `ts/routineProfileRefresh.ts` (Signal-Desktop).

The file models the routine profile refresh subsystem:
- the throttle gate `timeUntilNextRefresh`;
- the candidate selection generator `getFilteredConversations` together with
  its 50-element truncation `getConversationsToRefresh`;
- one pass `routineProfileRefresh` and one iteration of the scheduler loop
  `RoutineProfileRefresher.start` (as `startIteration`).

Modelling conventions:
- JavaScript timestamps are `Int` (milliseconds); `Date.now()` is passed in as
  an explicit `now` argument.
- A field that may hold `undefined`/`null`/a non-normal number is `Option Int`;
  `some t` stands for a value for which `isNormalNumber` returns `true`.
- lodash `sortBy` is a stable ascending sort whose comparator
  (`compareAscending`) places `undefined` keys after every defined key; it is
  modelled with `List.insertionSort` over `activeAtLe` (insertion sort with a
  total preorder is the unique stable sort).
- The generator's consumer is `take(·, 50)`, which stops pulling once 50
  elements were produced, so nothing after the 50th `yield` runs.  This is
  modelled by the `Option Nat` budget threaded through the scan: `none` is the
  un-truncated generator, `some n` the generator consumed through `take n`.
- Mutation of a conversation (`conversation.set({ profileKeyCredential: null,
  profileKeyCredentialExpiration: null })`) is tracked by recording the mutated
  conversation's id in the `cleared` list of the scan state, and by emitting
  the already-cleared record.
- The generator's `throw missingCaseError(type)` is the `errored` flag of the
  scan result; emissions produced before the throw are kept, as the consumer
  received them before the exception.
-/

/-! ## Durations (`ts/util/durations`) -/

def SECOND : Int := 1000

def MINUTE : Int := 60 * SECOND

def HOUR : Int := 60 * MINUTE

def DAY : Int := 24 * HOUR

def MONTH : Int := 30 * DAY

/-! ## Constants of `routineProfileRefresh.ts` -/

def MAX_AGE_TO_BE_CONSIDERED_ACTIVE : Int := MONTH

def MAX_AGE_TO_BE_CONSIDERED_RECENTLY_REFRESHED : Int := DAY

def MAX_CONVERSATIONS_TO_REFRESH : Nat := 50

def MIN_ELAPSED_DURATION_TO_REFRESH_AGAIN : Int := 12 * HOUR

def MIN_REFRESH_DELAY : Int := MINUTE

/-! ## Data model -/

/-- The kind of a conversation: the `type` attribute.  `individual` is the
source's `'private'` (a Lean keyword), `group` is `'group'`, and
`unknown s` stands for any other runtime string, which the scan's `default`
case turns into a thrown `missingCaseError`. -/
inductive ConvType where
  | individual : ConvType
  | group : ConvType
  | unknown : String → ConvType
deriving DecidableEq, Repr

/-- The attributes of a single contact that the refresh subsystem reads or
writes: its stable id, `active_at`, `profileLastFetchedAt`, and the two
credential fields cleared by the expired-credential branch.  `Option` fields
are `some` exactly when the stored value is a normal number (resp. a present
credential). -/
structure Contact where
  id : String
  active_at : Option Int
  profileLastFetchedAt : Option Int
  profileKeyCredential : Option String
  profileKeyCredentialExpiration : Option Int
deriving DecidableEq, Repr

/-- A conversation as scanned by the selector: its own contact attributes
(`contact`), its kind, and — read only for the `group` kind — its members,
each a full individual contact (`getMembers()`). -/
structure Conversation where
  contact : Contact
  ctype : ConvType
  members : List Contact
deriving DecidableEq, Repr

/-- Clearing of the credential fields performed by
`conversation.set({ profileKeyCredential: null,
profileKeyCredentialExpiration: null })`. -/
def clearCreds (c : Contact) : Contact :=
  { c with profileKeyCredential := none, profileKeyCredentialExpiration := none }

/-- Modelled from the spec: `ConversationModel.hasProfileKeyCredentialExpired`
lives in `ts/models/conversations.ts`, which is not part of the sources here.
The spec's glossary defines a profile credential as "a time-bounded credential
entitling display of enriched profile data" where "'expired' means its expiry
timestamp has passed": expired exactly when a credential expiration is present
and its timestamp is not in the future. -/
def hasProfileKeyCredentialExpired (now : Int) (c : Contact) : Bool :=
  match c.profileKeyCredentialExpiration with
  | some e => decide (e ≤ now)
  | none => false

/-- `isConversationActive`: `active_at` is a normal number and
`active_at + MAX_AGE_TO_BE_CONSIDERED_ACTIVE > Date.now()`. -/
def isConversationActive (now : Int) (c : Contact) : Bool :=
  match c.active_at with
  | some t => decide (t + MAX_AGE_TO_BE_CONSIDERED_ACTIVE > now)
  | none => false

/-- `hasRefreshedProfileRecently`: `profileLastFetchedAt` is a normal number
and `profileLastFetchedAt + MAX_AGE_TO_BE_CONSIDERED_RECENTLY_REFRESHED >
Date.now()`. -/
def hasRefreshedProfileRecently (now : Int) (c : Contact) : Bool :=
  match c.profileLastFetchedAt with
  | some t => decide (t + MAX_AGE_TO_BE_CONSIDERED_RECENTLY_REFRESHED > now)
  | none => false

/-! ## The sort (lodash `sortBy` over `active_at`) -/

/-- The ascending order used by lodash `sortBy(conversations, c =>
c.get('active_at'))`: its `compareAscending` orders numbers ascending and
places `undefined` (and `null`) keys after every number. -/
def activeAtLe (a b : Option Int) : Bool :=
  match a, b with
  | some x, some y => decide (x ≤ y)
  | some _, none => true
  | none, some _ => false
  | none, none => true

/-- The sort key relation on conversations. -/
def convLe (a b : Conversation) : Prop :=
  activeAtLe a.contact.active_at b.contact.active_at = true

instance : DecidableRel convLe := fun a b => by
  unfold convLe; infer_instance

/-- `sortBy(conversations, c => c.get('active_at'))`: a stable ascending sort
by `active_at`. -/
def sortConversations (l : List Conversation) : List Conversation :=
  List.insertionSort convLe l

/-! ## The candidate-selection scan -/

/-- The scan's mutable context: the `conversationIdsSeen` set (as a list whose
membership is what matters) and the ids of the conversations whose credential
fields the scan has cleared so far. -/
structure ScanState where
  seen : List String
  cleared : List String
deriving DecidableEq, Repr

/-- Whether the consumer has stopped pulling: a `take n` consumer that has
already received `n` elements.  The un-truncated generator (`none`) is never
exhausted. -/
def budgetZero : Option Nat → Bool
  | some 0 => true
  | some (_ + 1) => false
  | none => false

/-- One element was delivered to the consumer. -/
def budgetDec : Option Nat → Option Nat
  | some (b + 1) => some b
  | some 0 => some 0
  | none => none

/-- Result of scanning the members of one group conversation. -/
structure MemOut where
  emitted : List Contact
  fin : ScanState
  budget : Option Nat
deriving DecidableEq, Repr

/-- The member loop of the `'group'` case: for each member, if its id was not
seen and it was not refreshed recently, add it to seen and yield it.  A yield
happens only while the consumer still pulls (`budgetZero` is false). -/
def scanMembers (now : Int) (ms : List Contact) (st : ScanState)
    (b : Option Nat) : MemOut :=
  match ms with
  | [] => ⟨[], st, b⟩
  | m :: rest =>
    if budgetZero b then ⟨[], st, b⟩
    else if m.id ∉ st.seen ∧ hasRefreshedProfileRecently now m = false then
      let o := scanMembers now rest { st with seen := m.id :: st.seen }
        (budgetDec b)
      ⟨m :: o.emitted, o.fin, o.budget⟩
    else scanMembers now rest st b

/-- Result of running the selection generator: the contacts yielded to the
consumer, the final scan state, the remaining consumer budget, and whether the
generator threw `missingCaseError`. -/
structure ScanOut where
  emitted : List Contact
  fin : ScanState
  budget : Option Nat
  errored : Bool
deriving DecidableEq, Repr

/-- The loop of `getFilteredConversations` over the sorted conversations:
the `'private'` case first tries the expired-credential branch (clear the
credential fields, mark seen, yield), then the normal branch (not seen,
active, not recently refreshed); the `'group'` case runs the member loop; any
other `type` throws.  Nothing runs once the consumer stopped pulling. -/
def scanConvs (now : Int) (ourId : String) (l : List Conversation)
    (st : ScanState) (b : Option Nat) : ScanOut :=
  match l with
  | [] => ⟨[], st, b, false⟩
  | c :: rest =>
    if budgetZero b then ⟨[], st, b, false⟩
    else
      match c.ctype with
      | ConvType.individual =>
        if hasProfileKeyCredentialExpired now c.contact = true ∧
            (c.contact.id = ourId ∨ c.contact.id ∉ st.seen) then
          let o := scanConvs now ourId rest
            ⟨c.contact.id :: st.seen, c.contact.id :: st.cleared⟩ (budgetDec b)
          ⟨clearCreds c.contact :: o.emitted, o.fin, o.budget, o.errored⟩
        else if c.contact.id ∉ st.seen ∧
            isConversationActive now c.contact = true ∧
            hasRefreshedProfileRecently now c.contact = false then
          let o := scanConvs now ourId rest
            { st with seen := c.contact.id :: st.seen } (budgetDec b)
          ⟨c.contact :: o.emitted, o.fin, o.budget, o.errored⟩
        else scanConvs now ourId rest st b
      | ConvType.group =>
        let om := scanMembers now c.members st b
        let o := scanConvs now ourId rest om.fin om.budget
        ⟨om.emitted ++ o.emitted, o.fin, o.budget, o.errored⟩
      | ConvType.unknown _ => ⟨[], st, b, true⟩

/-- `getFilteredConversations(conversations, ourConversationId)`: sort by
`active_at`, seed the seen set with our conversation id, scan.  This is the
generator run to exhaustion (no truncation). -/
def getFilteredConversations (now : Int) (ourId : String)
    (convs : List Conversation) : ScanOut :=
  scanConvs now ourId (sortConversations convs) ⟨[ourId], []⟩ none

/-- `getConversationsToRefresh(conversations, ourConversationId)`: the same
generator consumed through `take(·, MAX_CONVERSATIONS_TO_REFRESH)`.  Modelled
from the spec for the part that is outside these sources
(`ts/util/iterables.take`): the spec states that "scanning may stop early once
50 are produced", i.e. the consumer stops pulling after 50 elements. -/
def getConversationsToRefresh (now : Int) (ourId : String)
    (convs : List Conversation) : ScanOut :=
  scanConvs now ourId (sortConversations convs) ⟨[ourId], []⟩
    (some MAX_CONVERSATIONS_TO_REFRESH)

/-! ## Throttle gate and one pass -/

/-- The value found under the `lastAttemptedToRefreshProfilesAt` storage key:
absent (`isNil`), a normal number, or some other value (`isNormalNumber`
false). -/
inductive StoredValue where
  | absent : StoredValue
  | num : Int → StoredValue
  | invalid : StoredValue
deriving DecidableEq, Repr

/-- `timeUntilNextRefresh(storage)`.  Returns the remaining cooldown and
whether the invalid-value warning was emitted.  Absent value: 0.  Normal
number: `max(0, stored + MIN_ELAPSED_DURATION_TO_REFRESH_AGAIN − now)`.
Anything else: the soft `assert(false, …)` fires and 0 is returned.  Modelled
from the spec for `ts/util/assert` (not in these sources): the spec states the
invalid case "logs a data-integrity warning and treats it as absent (returns
0) — it never fails the caller". -/
def timeUntilNextRefresh (now : Int) (stored : StoredValue) : Int × Bool :=
  match stored with
  | StoredValue.absent => (0, false)
  | StoredValue.num n =>
    (max 0 (n + MIN_ELAPSED_DURATION_TO_REFRESH_AGAIN - now), false)
  | StoredValue.invalid => (0, true)

/-- The counters of one pass: `totalCount` and `successCount`. -/
structure PassOutcome where
  attempted : Nat
  succeeded : Nat
deriving DecidableEq, Repr

/-- How one call of `routineProfileRefresh` ends: returned early because the
cooldown has not elapsed, completed with its counters, or threw (the selection
generator raised while being iterated). -/
inductive PassResult where
  | skippedTooSoon : PassResult
  | ok : PassOutcome → PassResult
  | errored : PassResult
deriving DecidableEq, Repr

/-- `routineProfileRefresh({allConversations, ourConversationId, storage})`.
If the cooldown has not elapsed, do nothing.  Otherwise persist `Date.now()`
under the storage key, then iterate the selection; every dispatched fetch is
wrapped in its own try/catch, so the pass completes with `attempted` equal to
the number of selected contacts and `succeeded` equal to the number whose
fetch succeeded (`fetchOk` gives each contact's fetch outcome).  A throw from
the selection generator propagates, after the storage write. -/
def routineProfileRefresh (now : Int) (stored : StoredValue) (ourId : String)
    (convs : List Conversation) (fetchOk : Contact → Bool) :
    StoredValue × PassResult :=
  if (timeUntilNextRefresh now stored).fst > 0 then
    (stored, PassResult.skippedTooSoon)
  else
    let o := getConversationsToRefresh now ourId convs
    if o.errored then (StoredValue.num now, PassResult.errored)
    else
      (StoredValue.num now,
        PassResult.ok ⟨o.emitted.length, o.emitted.countP fetchOk⟩)

/-- What one iteration of the `while (true)` loop of
`RoutineProfileRefresher.start` did. -/
structure IterationOutcome where
  waitedMs : Int
  warnedMissingOurId : Bool
  pass : Option PassResult
  caughtError : Bool
  backoffMs : Option Int
  stored : StoredValue
  continues : Bool
deriving DecidableEq, Repr

/-- One iteration of `RoutineProfileRefresher.start`: wait out the cooldown
(computed at `now₀`); if our conversation id is missing, warn and sleep
`MIN_REFRESH_DELAY`; otherwise run one pass (at `now₁`); a throw from the pass
is caught, logged, and followed by a `MIN_REFRESH_DELAY` sleep.  The loop body
always continues — there is no break or return. -/
def startIteration (now₀ now₁ : Int) (stored : StoredValue)
    (ourIdOpt : Option String) (convs : List Conversation)
    (fetchOk : Contact → Bool) : IterationOutcome :=
  let waitMs := (timeUntilNextRefresh now₀ stored).fst
  match ourIdOpt with
  | none => ⟨waitMs, true, none, false, some MIN_REFRESH_DELAY, stored, true⟩
  | some ourId =>
    match routineProfileRefresh now₁ stored ourId convs fetchOk with
    | (stored₁, PassResult.errored) =>
      ⟨waitMs, false, some PassResult.errored, true, some MIN_REFRESH_DELAY,
        stored₁, true⟩
    | (stored₁, pr) => ⟨waitMs, false, some pr, false, none, stored₁, true⟩

/-! ## Helper lemmas about the scan -/

theorem budgetZero_none : budgetZero none = false := rfl

theorem budgetDec_none : budgetDec none = none := rfl

/-- Scanning members never changes the `cleared` list: the `'group'` branch
performs no conversation mutation. -/
theorem scanMembers_fin_cleared (now : Int) (ms : List Contact)
    (st : ScanState) (b : Option Nat) :
    (scanMembers now ms st b).fin.cleared = st.cleared := by
  induction ms generalizing st b with
  | nil => rfl
  | cons m rest ih =>
    simp only [scanMembers]
    split_ifs with hb hm
    · rfl
    · exact ih _ _
    · exact ih _ _

/-- The member loop grows the seen set by exactly the ids it emitted. -/
theorem scanMembers_fin_seen (now : Int) (ms : List Contact)
    (st : ScanState) (b : Option Nat) :
    (scanMembers now ms st b).fin.seen =
      ((scanMembers now ms st b).emitted.map (·.id)).reverse ++ st.seen := by
  induction ms generalizing st b with
  | nil => rfl
  | cons m rest ih =>
    simp only [scanMembers]
    split_ifs with hb hm
    · rfl
    · rw [ih]
      simp
    · exact ih _ _

/-- Every member emitted by the member loop is a member, had not been seen on
entry, and was not recently refreshed. -/
theorem scanMembers_emitted_props (now : Int) (ms : List Contact)
    (st : ScanState) (b : Option Nat) :
    ∀ e ∈ (scanMembers now ms st b).emitted,
      e ∈ ms ∧ e.id ∉ st.seen ∧ hasRefreshedProfileRecently now e = false := by
  induction ms generalizing st b with
  | nil => intro e he; simp [scanMembers] at he
  | cons m rest ih =>
    intro e he
    simp only [scanMembers] at he
    split_ifs at he with hb hm
    · simp at he
    · rcases List.mem_cons.mp he with rfl | he'
      · exact ⟨List.mem_cons_self _ _, hm.1, hm.2⟩
      · obtain ⟨h1, h2, h3⟩ := ih _ _ _ he'
        refine ⟨List.mem_cons_of_mem _ h1, ?_, h3⟩
        intro hcon
        exact h2 (List.mem_cons_of_mem _ hcon)
    · obtain ⟨h1, h2, h3⟩ := ih _ _ _ he
      exact ⟨List.mem_cons_of_mem _ h1, h2, h3⟩

/-- The ids emitted by one run of the member loop are pairwise distinct. -/
theorem scanMembers_emitted_nodup (now : Int) (ms : List Contact)
    (st : ScanState) (b : Option Nat) :
    ((scanMembers now ms st b).emitted.map (·.id)).Nodup := by
  induction ms generalizing st b with
  | nil => simp [scanMembers]
  | cons m rest ih =>
    simp only [scanMembers]
    split_ifs with hb hm
    · simp
    · simp only [List.map_cons, List.nodup_cons]
      refine ⟨?_, ih _ _⟩
      intro hcon
      rcases List.mem_map.mp hcon with ⟨e, he, hid⟩
      obtain ⟨-, h2, -⟩ := scanMembers_emitted_props now rest _ _ e he
      exact h2 (by rw [hid]; exact List.mem_cons_self _ _)
    · exact ih _ _

/-- The scan grows the seen set by exactly the ids it emitted. -/
theorem scanConvs_fin_seen (now : Int) (ourId : String)
    (l : List Conversation) (st : ScanState) (b : Option Nat) :
    (scanConvs now ourId l st b).fin.seen =
      ((scanConvs now ourId l st b).emitted.map (·.id)).reverse ++ st.seen := by
  induction l generalizing st b with
  | nil => rfl
  | cons c rest ih =>
    obtain ⟨cc, ct, cms⟩ := c
    cases ct with
    | individual =>
      simp only [scanConvs]
      split_ifs with hb h1 h2
      · rfl
      · rw [ih]
        simp [clearCreds]
      · rw [ih]
        simp
      · exact ih _ _
    | group =>
      simp only [scanConvs]
      split_ifs with hb
      · rfl
      · rw [ih, scanMembers_fin_seen]
        simp
    | unknown s =>
      simp only [scanConvs]
      split_ifs with hb
      · rfl
      · rfl

/-- Ids seen on entry are still seen when the scan finishes. -/
theorem scanConvs_seen_mono (now : Int) (ourId : String)
    (l : List Conversation) (st : ScanState) (b : Option Nat) :
    ∀ i ∈ st.seen, i ∈ (scanConvs now ourId l st b).fin.seen := by
  intro i hi
  rw [scanConvs_fin_seen]
  exact List.mem_append_right _ hi

/-- Provenance of an emission carrying our conversation id: if our id was
already seen on entry (it always is: the seen set is seeded with it), the only
way a contact with our id is emitted is the expired-credential branch of a
directly scanned individual conversation, which emits it with the credential
fields cleared. -/
theorem scanConvs_emitted_ourId (now : Int) (ourId : String)
    (l : List Conversation) (st : ScanState) (b : Option Nat)
    (hour : ourId ∈ st.seen) :
    ∀ e ∈ (scanConvs now ourId l st b).emitted, e.id = ourId →
      ∃ c ∈ l, c.ctype = ConvType.individual ∧ c.contact.id = ourId ∧
        hasProfileKeyCredentialExpired now c.contact = true ∧
        e = clearCreds c.contact := by
  induction l generalizing st b with
  | nil => intro e he; simp [scanConvs] at he
  | cons c rest ih =>
    intro e he hid
    obtain ⟨cc, ct, cms⟩ := c
    cases ct with
    | individual =>
      simp only [scanConvs] at he
      split_ifs at he with hb h1 h2
      · simp at he
      · rcases List.mem_cons.mp he with rfl | he'
        · refine ⟨⟨cc, ConvType.individual, cms⟩, List.mem_cons_self _ _,
            rfl, ?_, h1.1, rfl⟩
          simpa [clearCreds] using hid
        · obtain ⟨c', hc', hprop⟩ := ih _ _
            (List.mem_cons_of_mem _ hour) e he' hid
          exact ⟨c', List.mem_cons_of_mem _ hc', hprop⟩
      · rcases List.mem_cons.mp he with rfl | he'
        · exact absurd hour (hid ▸ h2.1)
        · obtain ⟨c', hc', hprop⟩ := ih _ _
            (List.mem_cons_of_mem _ hour) e he' hid
          exact ⟨c', List.mem_cons_of_mem _ hc', hprop⟩
      · obtain ⟨c', hc', hprop⟩ := ih _ _ hour e he hid
        exact ⟨c', List.mem_cons_of_mem _ hc', hprop⟩
    | group =>
      simp only [scanConvs] at he
      split_ifs at he with hb
      · simp at he
      · simp only [List.mem_append] at he
        rcases he with hm | he'
        · obtain ⟨-, h2, -⟩ := scanMembers_emitted_props now cms st b e hm
          exact absurd hour (hid ▸ h2)
        · have hour' : ourId ∈ (scanMembers now cms st b).fin.seen := by
            rw [scanMembers_fin_seen]
            exact List.mem_append_right _ hour
          obtain ⟨c', hc', hprop⟩ := ih _ _ hour' e he' hid
          exact ⟨c', List.mem_cons_of_mem _ hc', hprop⟩
    | unknown s =>
      simp only [scanConvs] at he
      split_ifs at he with hb
      · simp at he
      · simp at he

/-- The deduplication invariant: when our id is already seen and the directly
scanned conversation ids are pairwise distinct, the scan emits pairwise
distinct ids, and every emitted id either was unseen on entry or is our id
carried by an individual conversation of the scanned list. -/
theorem scanConvs_emitted_nodup (now : Int) (ourId : String)
    (l : List Conversation) (st : ScanState) (b : Option Nat)
    (hour : ourId ∈ st.seen) (hl : (l.map (·.contact.id)).Nodup) :
    ((scanConvs now ourId l st b).emitted.map (·.id)).Nodup ∧
      ∀ i ∈ (scanConvs now ourId l st b).emitted.map (·.id),
        i ∉ st.seen ∨ (i = ourId ∧ ∃ c ∈ l,
          c.ctype = ConvType.individual ∧ c.contact.id = ourId) := by
  induction l generalizing st b with
  | nil => simp [scanConvs]
  | cons c rest ih =>
    obtain ⟨cc, ct, cms⟩ := c
    simp only [List.map_cons, List.nodup_cons] at hl
    cases ct with
    | individual =>
      simp only [scanConvs]
      split_ifs with hb h1 h2
      · simp
      · -- expired-credential branch
        have hour' : ourId ∈ cc.id :: st.seen := List.mem_cons_of_mem _ hour
        have hclr : (clearCreds cc).id = cc.id := rfl
        obtain ⟨ihn, ihp⟩ := ih ⟨cc.id :: st.seen, cc.id :: st.cleared⟩
          (budgetDec b) hour' hl.2
        constructor
        · simp only [List.map_cons, List.nodup_cons]
          refine ⟨?_, ihn⟩
          intro hcon
          rw [hclr] at hcon
          rcases ihp _ hcon with hnot | ⟨hidour, c', hc', hctyp', hid'⟩
          · exact hnot (List.mem_cons_self _ _)
          · refine hl.1 ?_
            rw [hidour, ← hid']
            exact List.mem_map.mpr ⟨c', hc', rfl⟩
        · intro i hi
          simp only [List.map_cons, hclr, List.mem_cons] at hi
          rcases hi with rfl | hi'
          · rcases h1.2 with hEq | hnot
            · exact Or.inr ⟨hEq, ⟨cc, ConvType.individual, cms⟩,
                List.mem_cons_self _ _, rfl, hEq⟩
            · exact Or.inl hnot
          · rcases ihp _ hi' with hnot | ⟨hidour, c', hc', hprop'⟩
            · exact Or.inl fun hcon => hnot (List.mem_cons_of_mem _ hcon)
            · exact Or.inr ⟨hidour, c', List.mem_cons_of_mem _ hc', hprop'⟩
      · -- normal branch
        have hour' : ourId ∈ cc.id :: st.seen := List.mem_cons_of_mem _ hour
        obtain ⟨ihn, ihp⟩ := ih
          { seen := cc.id :: st.seen, cleared := st.cleared }
          (budgetDec b) hour' hl.2
        constructor
        · simp only [List.map_cons, List.nodup_cons]
          refine ⟨?_, ihn⟩
          intro hcon
          rcases ihp _ hcon with hnot | ⟨hidour, c', hc', hctyp', hid'⟩
          · exact hnot (List.mem_cons_self _ _)
          · exact h2.1 (hidour ▸ hour)
        · intro i hi
          simp only [List.map_cons, List.mem_cons] at hi
          rcases hi with rfl | hi'
          · exact Or.inl h2.1
          · rcases ihp _ hi' with hnot | ⟨hidour, c', hc', hprop'⟩
            · exact Or.inl fun hcon => hnot (List.mem_cons_of_mem _ hcon)
            · exact Or.inr ⟨hidour, c', List.mem_cons_of_mem _ hc', hprop'⟩
      · -- skipped
        obtain ⟨ihn, ihp⟩ := ih st b hour hl.2
        refine ⟨ihn, fun i hi => ?_⟩
        rcases ihp _ hi with hnot | ⟨hidour, c', hc', hprop'⟩
        · exact Or.inl hnot
        · exact Or.inr ⟨hidour, c', List.mem_cons_of_mem _ hc', hprop'⟩
    | group =>
      simp only [scanConvs]
      split_ifs with hb
      · simp
      · have hour' : ourId ∈ (scanMembers now cms st b).fin.seen :=
          scanMembers_fin_seen now cms st b ▸ List.mem_append_right _ hour
        obtain ⟨ihn, ihp⟩ := ih (scanMembers now cms st b).fin
          (scanMembers now cms st b).budget hour' hl.2
        have hmem : ∀ i ∈ (scanMembers now cms st b).emitted.map (·.id),
            i ∉ st.seen := by
          intro i hi
          rcases List.mem_map.mp hi with ⟨e, he, rfl⟩
          exact (scanMembers_emitted_props now cms st b e he).2.1
        constructor
        · rw [List.map_append, List.nodup_append]
          refine ⟨scanMembers_emitted_nodup now cms st b, ihn, ?_⟩
          intro i hi hcon
          rcases ihp _ hcon with hnot | ⟨hidour, -⟩
          · refine hnot ?_
            rw [scanMembers_fin_seen]
            exact List.mem_append_left _ (by simpa using hi)
          · exact hmem i hi (hidour ▸ hour)
        · intro i hi
          rw [List.map_append, List.mem_append] at hi
          rcases hi with hi | hi
          · exact Or.inl (hmem i hi)
          · rcases ihp _ hi with hnot | ⟨hidour, c', hc', hprop'⟩
            · refine Or.inl fun hcon => hnot ?_
              rw [scanMembers_fin_seen]
              exact List.mem_append_right _ hcon
            · exact Or.inr ⟨hidour, c', List.mem_cons_of_mem _ hc', hprop'⟩
    | unknown s =>
      simp only [scanConvs]
      split_ifs with hb
      · simp
      · simp

/-- The un-truncated member loop keeps the `none` budget. -/
theorem scanMembers_budget_none (now : Int) (ms : List Contact)
    (st : ScanState) : (scanMembers now ms st none).budget = none := by
  induction ms generalizing st with
  | nil => rfl
  | cons m rest ih =>
    simp only [scanMembers, budgetZero, Bool.false_eq_true, ite_false,
      budgetDec]
    split_ifs with hm
    · exact ih _
    · exact ih _

/-- The un-truncated scan keeps the `none` budget. -/
theorem scanConvs_budget_none (now : Int) (ourId : String)
    (l : List Conversation) (st : ScanState) :
    (scanConvs now ourId l st none).budget = none := by
  induction l generalizing st with
  | nil => rfl
  | cons c rest ih =>
    obtain ⟨cc, ct, cms⟩ := c
    cases ct with
    | individual =>
      simp only [scanConvs, budgetZero, Bool.false_eq_true, ite_false,
        budgetDec]
      split_ifs with h1 h2
      · exact ih _
      · exact ih _
      · exact ih _
    | group =>
      simp only [scanConvs, budgetZero, Bool.false_eq_true, ite_false]
      rw [scanMembers_budget_none]
      exact ih _
    | unknown s => rfl

/-- Budget accounting for the member loop: under a `take n` consumer it emits
at most `n` members, and the remaining budget is exactly `n` minus the number
emitted. -/
theorem scanMembers_budget_spec (now : Int) (ms : List Contact)
    (st : ScanState) (n : Nat) :
    (scanMembers now ms st (some n)).emitted.length ≤ n ∧
      (scanMembers now ms st (some n)).budget =
        some (n - (scanMembers now ms st (some n)).emitted.length) := by
  induction ms generalizing st n with
  | nil => simp [scanMembers]
  | cons m rest ih =>
    cases n with
    | zero => simp [scanMembers, budgetZero]
    | succ k =>
      simp only [scanMembers, budgetZero, Bool.false_eq_true, ite_false,
        budgetDec]
      split_ifs with hm
      · obtain ⟨ih1, ih2⟩ := ih { st with seen := m.id :: st.seen } k
        constructor
        · simpa [Nat.succ_le_succ] using Nat.succ_le_succ ih1
        · rw [ih2]
          simp [Nat.succ_sub_succ]
      · exact ih _ _

/-- Budget accounting for the scan: under a `take n` consumer it emits at most
`n` contacts, and the remaining budget is exactly `n` minus the number
emitted. -/
theorem scanConvs_budget_spec (now : Int) (ourId : String)
    (l : List Conversation) (st : ScanState) (n : Nat) :
    (scanConvs now ourId l st (some n)).emitted.length ≤ n ∧
      (scanConvs now ourId l st (some n)).budget =
        some (n - (scanConvs now ourId l st (some n)).emitted.length) := by
  induction l generalizing st n with
  | nil => simp [scanConvs]
  | cons c rest ih =>
    obtain ⟨cc, ct, cms⟩ := c
    cases ct with
    | individual =>
      cases n with
      | zero => simp [scanConvs, budgetZero]
      | succ k =>
        simp only [scanConvs, budgetZero, Bool.false_eq_true, ite_false,
          budgetDec]
        split_ifs with h1 h2
        · obtain ⟨ih1, ih2⟩ := ih ⟨cc.id :: st.seen, cc.id :: st.cleared⟩ k
          constructor
          · simpa using Nat.succ_le_succ ih1
          · rw [ih2]
            simp [Nat.succ_sub_succ]
        · obtain ⟨ih1, ih2⟩ := ih
            { seen := cc.id :: st.seen, cleared := st.cleared } k
          constructor
          · simpa using Nat.succ_le_succ ih1
          · rw [ih2]
            simp [Nat.succ_sub_succ]
        · exact ih _ _
    | group =>
      cases n with
      | zero => simp [scanConvs, budgetZero]
      | succ k =>
        simp only [scanConvs, budgetZero, Bool.false_eq_true, ite_false]
        obtain ⟨hm1, hm2⟩ := scanMembers_budget_spec now cms st (k + 1)
        rw [hm2]
        obtain ⟨ih1, ih2⟩ := ih (scanMembers now cms st (some (k + 1))).fin
          (k + 1 - (scanMembers now cms st (some (k + 1))).emitted.length)
        constructor
        · rw [List.length_append]
          omega
        · rw [ih2, List.length_append]
          congr 1
          omega
    | unknown s =>
      cases n with
      | zero => simp [scanConvs, budgetZero]
      | succ k => simp [scanConvs, budgetZero]

/-! ## Order facts about the sort -/

theorem activeAtLe_refl (k : Option Int) : activeAtLe k k = true := by
  cases k <;> simp [activeAtLe]

instance : IsTotal Conversation convLe := by
  constructor
  intro a b
  unfold convLe activeAtLe
  rcases a.contact.active_at with _ | x <;> rcases b.contact.active_at with _ | y <;>
    simp
  exact le_total x y

instance : IsTrans Conversation convLe := by
  constructor
  intro a b c hab hbc
  obtain ⟨⟨_, ka, _, _, _⟩, _, _⟩ := a
  obtain ⟨⟨_, kb, _, _, _⟩, _, _⟩ := b
  obtain ⟨⟨_, kc, _, _, _⟩, _, _⟩ := c
  rcases ka with _ | x <;> rcases kb with _ | y <;> rcases kc with _ | z <;>
    simp_all [convLe, activeAtLe]
  omega

/-- The sort is a permutation of its input. -/
theorem sortConversations_perm (l : List Conversation) :
    List.Perm (sortConversations l) l :=
  List.perm_insertionSort convLe l

/-- The sort is ascending for `activeAtLe`: numeric `active_at` ascending,
missing `active_at` after every numeric one. -/
theorem sortConversations_sorted (l : List Conversation) :
    List.Sorted convLe (sortConversations l) :=
  List.sorted_insertionSort convLe l

/-- Stability of the sort: the contacts sharing any one sort key keep their
input order. -/
theorem sortConversations_stable (l : List Conversation) (k : Option Int) :
    (sortConversations l).filter (fun c => c.contact.active_at = k) =
      l.filter (fun c => c.contact.active_at = k) := by
  classical
  set p : Conversation → Bool := fun c => decide (c.contact.active_at = k)
  have hpair : (l.filter p).Pairwise convLe := by
    apply List.pairwise_of_forall_mem_list
    intro a ha b hb
    have hak : a.contact.active_at = k := by
      simpa [p] using (List.mem_filter.mp ha).2
    have hbk : b.contact.active_at = k := by
      simpa [p] using (List.mem_filter.mp hb).2
    unfold convLe
    rw [hak, hbk]
    exact activeAtLe_refl k
  have hsub : List.Sublist (l.filter p) (sortConversations l) :=
    List.sublist_insertionSort hpair (List.filter_sublist l)
  have hsub2 : List.Sublist ((l.filter p).filter p)
      ((sortConversations l).filter p) :=
    hsub.filter p
  have hidem : (l.filter p).filter p = l.filter p := by
    simp [List.filter_filter]
  rw [hidem] at hsub2
  have hlen : ((sortConversations l).filter p).length = (l.filter p).length :=
    ((sortConversations_perm l).filter p).length_eq
  exact (hsub2.eq_of_length hlen.symm).symm

/-! ## Claim theorems -/

/-- C1: for every input contact set (directly scanned conversation ids
pairwise distinct) and local identity id, `getConversationsToRefresh` emits at
most `MAX_CONVERSATIONS_TO_REFRESH = 50` contacts and never the same contact
id twice. -/
theorem C1_selection_bounded_nodup (now : Int) (ourId : String)
    (convs : List Conversation)
    (hset : (convs.map (·.contact.id)).Nodup) :
    (getConversationsToRefresh now ourId convs).emitted.length ≤ 50 ∧
      ((getConversationsToRefresh now ourId convs).emitted.map
        (·.id)).Nodup := by
  unfold getConversationsToRefresh
  constructor
  · exact (scanConvs_budget_spec now ourId (sortConversations convs)
      ⟨[ourId], []⟩ MAX_CONVERSATIONS_TO_REFRESH).1
  · have hperm : List.Perm (convs.map (·.contact.id))
        ((sortConversations convs).map (·.contact.id)) :=
      ((sortConversations_perm convs).map _).symm
    exact (scanConvs_emitted_nodup now ourId (sortConversations convs)
      ⟨[ourId], []⟩ (some MAX_CONVERSATIONS_TO_REFRESH)
      (List.mem_cons_self _ _) (hperm.nodup hset)).1

/-- Witness for C1 at a concrete input. -/
theorem C1_selection_bounded_nodup_witness :
    (([⟨⟨"x", some 5, none, none, none⟩, ConvType.individual, []⟩,
       ⟨⟨"y", none, none, none, none⟩, ConvType.group,
         [⟨"z", none, none, none, none⟩]⟩] :
        List Conversation).map (·.contact.id)).Nodup ∧
      ((getConversationsToRefresh 1500 "me"
          [⟨⟨"x", some 5, none, none, none⟩, ConvType.individual, []⟩,
           ⟨⟨"y", none, none, none, none⟩, ConvType.group,
             [⟨"z", none, none, none, none⟩]⟩]).emitted.length ≤ 50 ∧
        ((getConversationsToRefresh 1500 "me"
          [⟨⟨"x", some 5, none, none, none⟩, ConvType.individual, []⟩,
           ⟨⟨"y", none, none, none, none⟩, ConvType.group,
             [⟨"z", none, none, none, none⟩]⟩]).emitted.map (·.id)).Nodup) :=
  ⟨by decide, C1_selection_bounded_nodup 1500 "me" _ (by decide)⟩

/-- C2: `timeUntilNextRefresh` returns 0 when nothing is stored under the
throttle key; returns `max 0 (stored + 12h − now)` when the stored value is a
valid number; and when the stored value is present but not a valid numeric
timestamp it emits the warning and returns 0 to the caller (the `Bool`
component records the warning; the function is total, so the caller never
sees a failure). -/
theorem C2_timeUntilNextRefresh_cases (now n : Int) :
    timeUntilNextRefresh now StoredValue.absent = (0, false) ∧
      timeUntilNextRefresh now (StoredValue.num n) =
        (max 0 (n + 12 * HOUR - now), false) ∧
      timeUntilNextRefresh now StoredValue.invalid = (0, true) :=
  ⟨rfl, rfl, rfl⟩

/-- C7: a pass whose cooldown has elapsed and whose selection completes
dispatches one fetch per selected contact; when every fetch fails the pass
still completes normally (`PassResult.ok`), reporting `attempted = N` and
`succeeded = 0`. -/
theorem C7_all_fetches_fail (now : Int) (stored : StoredValue)
    (ourId : String) (convs : List Conversation)
    (hready : (timeUntilNextRefresh now stored).fst = 0)
    (hok : (getConversationsToRefresh now ourId convs).errored = false) :
    routineProfileRefresh now stored ourId convs (fun _ => false) =
      (StoredValue.num now,
        PassResult.ok
          ⟨(getConversationsToRefresh now ourId convs).emitted.length, 0⟩) := by
  unfold routineProfileRefresh
  rw [hready]
  simp [hok]

/-- Witness for C7 at a concrete input: two eligible contacts, both fetches
fail, the pass reports `attempted = 2, succeeded = 0`. -/
theorem C7_all_fetches_fail_witness :
    (timeUntilNextRefresh 1500 StoredValue.absent).fst = 0 ∧
      routineProfileRefresh 1500 StoredValue.absent "me"
          [⟨⟨"x", some 5, none, none, none⟩, ConvType.individual, []⟩,
           ⟨⟨"y", some 6, none, none, none⟩, ConvType.individual, []⟩]
          (fun _ => false) =
        (StoredValue.num 1500,
          PassResult.ok
            ⟨(getConversationsToRefresh 1500 "me"
                [⟨⟨"x", some 5, none, none, none⟩, ConvType.individual, []⟩,
                 ⟨⟨"y", some 6, none, none, none⟩,
                   ConvType.individual, []⟩]).emitted.length, 0⟩) :=
  ⟨rfl, C7_all_fetches_fail 1500 StoredValue.absent "me" _ rfl (by decide)⟩

/-- C9: whenever a pass actually starts (remaining cooldown is 0), the
throttle timestamp is persisted as the current time no matter how the pass
ends — in particular a pass that throws during selection still consumes the
12-hour cooldown. -/
theorem C9_failed_pass_consumes_cooldown (now : Int) (stored : StoredValue)
    (ourId : String) (convs : List Conversation) (fetchOk : Contact → Bool)
    (hready : (timeUntilNextRefresh now stored).fst = 0) :
    (routineProfileRefresh now stored ourId convs fetchOk).fst =
      StoredValue.num now := by
  unfold routineProfileRefresh
  rw [hready]
  by_cases h : (getConversationsToRefresh now ourId convs).errored <;> simp [h]

/-- Witness for C9 at a concrete input where the selection throws (unknown
conversation kind) and the timestamp is persisted anyway. -/
theorem C9_failed_pass_consumes_cooldown_witness :
    (timeUntilNextRefresh 1500 StoredValue.absent).fst = 0 ∧
      (routineProfileRefresh 1500 StoredValue.absent "me"
          [⟨⟨"x", none, none, none, none⟩, ConvType.unknown "story", []⟩]
          (fun _ => false)).fst = StoredValue.num 1500 :=
  ⟨rfl, C9_failed_pass_consumes_cooldown 1500 StoredValue.absent "me" _ _ rfl⟩

/-- Characterisation of member emission for the un-truncated generator: with
pairwise-distinct member ids, a member is emitted exactly when its id was not
yet seen and it was not refreshed recently. -/
theorem scanMembers_mem_iff (now : Int) (ms : List Contact) (st : ScanState)
    (hnd : (ms.map (·.id)).Nodup) :
    ∀ m ∈ ms, (m ∈ (scanMembers now ms st none).emitted ↔
      (m.id ∉ st.seen ∧ hasRefreshedProfileRecently now m = false)) := by
  induction ms generalizing st with
  | nil => intro m hm; simp at hm
  | cons m0 rest ih =>
    intro m hm
    simp only [List.map_cons, List.nodup_cons] at hnd
    constructor
    · intro he
      obtain ⟨-, h2, h3⟩ := scanMembers_emitted_props now (m0 :: rest) st none m he
      exact ⟨h2, h3⟩
    · rintro ⟨hseen, hrec⟩
      rcases List.mem_cons.mp hm with rfl | hm'
      · simp only [scanMembers, budgetZero, Bool.false_eq_true, ite_false]
        rw [if_pos ⟨hseen, hrec⟩]
        exact List.mem_cons_self _ _
      · simp only [scanMembers, budgetZero, Bool.false_eq_true, ite_false]
        split_ifs with h0
        · have hne : m.id ≠ m0.id := by
            intro hcon
            exact hnd.1 (hcon ▸ List.mem_map.mpr ⟨m, hm', rfl⟩)
          have : m ∈ (scanMembers now rest
              { st with seen := m0.id :: st.seen } (budgetDec none)).emitted := by
            refine (ih _ hnd.2 m hm').mpr ⟨?_, hrec⟩
            intro hcon
            rcases List.mem_cons.mp hcon with h | h
            · exact hne h
            · exact hseen h
          exact List.mem_cons_of_mem _ this
        · exact (ih _ hnd.2 m hm').mpr ⟨hseen, hrec⟩

/-- C5 (amended): candidate selection scans the contacts in ascending order
of last-activity timestamp where a contact with no activity timestamp sorts
as newest (after every contact that has a numeric activity timestamp — this
is lodash `sortBy`, whose comparator puts `undefined` keys last), with ties
broken by stable input order: the scanned list is a permutation of the input,
sorted for `convLe`, key-classes keep their input order, and the generator
scans exactly this sorted list. -/
theorem C5_scan_order_amended (now : Int) (ourId : String)
    (convs : List Conversation) :
    List.Perm (sortConversations convs) convs ∧
      List.Sorted convLe (sortConversations convs) ∧
      (∀ k : Option Int,
        (sortConversations convs).filter (fun c => c.contact.active_at = k) =
          convs.filter (fun c => c.contact.active_at = k)) ∧
      getFilteredConversations now ourId convs =
        scanConvs now ourId (sortConversations convs) ⟨[ourId], []⟩ none :=
  ⟨sortConversations_perm convs, sortConversations_sorted convs,
    fun k => sortConversations_stable convs k, rfl⟩

/-- C5 counterexample: contact `a` has no activity timestamp and contact `b`
has a numeric one; both are eligible (expired credential), yet the scan emits
`b` before `a` — a missing timestamp sorts as newest, not as oldest as the
claim states. -/
theorem C5_counterexample :
    ((getFilteredConversations 1500 "me"
        [⟨⟨"a", none, none, none, some 0⟩, ConvType.individual, []⟩,
         ⟨⟨"b", some 0, none, none, some 0⟩,
           ConvType.individual, []⟩]).emitted.map (·.id) = ["b", "a"]) ∧
      (["b", "a"] : List String) ≠ ["a", "b"] := by
  constructor
  · rfl
  · decide

/-- C6: for a group conversation scanned with any incoming seen set, a member
(of a duplicate-free member list) is emitted if and only if its id has not
already been seen and its last profile fetch is not within 24 hours — note
the absence of any condition on the member's `active_at`: the 30-day
activity-recency rule does not apply to group members. -/
theorem C6_group_member_iff (now : Int) (ourId : String) (st : ScanState)
    (g : Conversation) (hg : g.ctype = ConvType.group)
    (hnd : (g.members.map (·.id)).Nodup) :
    ∀ m ∈ g.members,
      (m ∈ (scanConvs now ourId [g] st none).emitted ↔
        (m.id ∉ st.seen ∧ hasRefreshedProfileRecently now m = false)) := by
  obtain ⟨gc, gt, gms⟩ := g
  cases hg
  intro m hm
  simp only [scanConvs, budgetZero, Bool.false_eq_true, ite_false,
    List.append_nil]
  exact scanMembers_mem_iff now gms st hnd m hm

/-- Witness for C6: a group member whose last activity is 40 days old (hence
not "active") and who was never refreshed is emitted anyway. -/
theorem C6_group_member_iff_witness :
    ((([⟨"m", some 0, none, none, none⟩, ⟨"n", some 5, none, none, none⟩] :
          List Contact).map (·.id)).Nodup ∧
      isConversationActive (40 * DAY) ⟨"m", some 0, none, none, none⟩ =
        false) ∧
      (⟨"m", some 0, none, none, none⟩ : Contact) ∈
        (scanConvs (40 * DAY) "me"
          [⟨⟨"g", none, none, none, none⟩, ConvType.group,
            [⟨"m", some 0, none, none, none⟩,
             ⟨"n", some 5, none, none, none⟩]⟩]
          ⟨["me"], []⟩ none).emitted :=
  ⟨⟨by decide, by decide⟩,
    (C6_group_member_iff (40 * DAY) "me" ⟨["me"], []⟩
        ⟨⟨"g", none, none, none, none⟩, ConvType.group,
          [⟨"m", some 0, none, none, none⟩,
           ⟨"n", some 5, none, none, none⟩]⟩ rfl (by decide)
        ⟨"m", some 0, none, none, none⟩ (by decide)).mpr
      ⟨by decide, by decide⟩⟩

/-- C10: the expired-credential override only applies to individual
conversations scanned directly: a group member with an expired credential
that was refreshed within the last 24 hours is not emitted, and the scan of
the group leaves the set of credential-cleared conversations unchanged (in
particular the member's credential fields are untouched). -/
theorem C10_group_member_frame (now : Int) (ourId : String) (st : ScanState)
    (g : Conversation) (hg : g.ctype = ConvType.group) (m : Contact)
    (hm : m ∈ g.members)
    (hexp : hasProfileKeyCredentialExpired now m = true)
    (hrec : hasRefreshedProfileRecently now m = true) :
    m ∉ (scanConvs now ourId [g] st none).emitted ∧
      (scanConvs now ourId [g] st none).fin.cleared = st.cleared := by
  obtain ⟨gc, gt, gms⟩ := g
  cases hg
  constructor
  · intro hcon
    simp only [scanConvs, budgetZero, Bool.false_eq_true, ite_false,
      List.append_nil] at hcon
    obtain ⟨-, -, h3⟩ := scanMembers_emitted_props now gms st none m hcon
    rw [hrec] at h3
    exact absurd h3 (by decide)
  · simp only [scanConvs, budgetZero, Bool.false_eq_true, ite_false]
    exact scanMembers_fin_cleared now gms st none

/-- Witness for C10: a recently refreshed group member with an expired
credential is skipped and nothing is cleared. -/
theorem C10_group_member_frame_witness :
    (hasProfileKeyCredentialExpired 1500 ⟨"m", some 0, some 1400, some "k",
        some 0⟩ = true ∧
      hasRefreshedProfileRecently 1500 ⟨"m", some 0, some 1400, some "k",
        some 0⟩ = true) ∧
      ((⟨"m", some 0, some 1400, some "k", some 0⟩ : Contact) ∉
          (scanConvs 1500 "me"
            [⟨⟨"g", none, none, none, none⟩, ConvType.group,
              [⟨"m", some 0, some 1400, some "k", some 0⟩]⟩]
            ⟨["me"], []⟩ none).emitted ∧
        (scanConvs 1500 "me"
            [⟨⟨"g", none, none, none, none⟩, ConvType.group,
              [⟨"m", some 0, some 1400, some "k", some 0⟩]⟩]
            ⟨["me"], []⟩ none).fin.cleared = ([] : List String)) :=
  ⟨⟨by decide, by decide⟩,
    C10_group_member_frame 1500 "me" ⟨["me"], []⟩
      ⟨⟨"g", none, none, none, none⟩, ConvType.group,
        [⟨"m", some 0, some 1400, some "k", some 0⟩]⟩ rfl
      ⟨"m", some 0, some 1400, some "k", some 0⟩ (by decide) (by decide)
      (by decide)⟩

/-- With our id seeded, pairwise-distinct conversation ids, no unknown kinds,
and an individual conversation `c0` carrying our id with an expired
credential, the un-truncated scan emits exactly one contact with our id: the
credential-cleared record of `c0`. -/
theorem scanConvs_our_filter (now : Int) (ourId : String)
    (l : List Conversation) (st : ScanState)
    (hour : ourId ∈ st.seen)
    (hnd : (l.map (·.contact.id)).Nodup)
    (hnu : ∀ c ∈ l, c.ctype = ConvType.individual ∨ c.ctype = ConvType.group)
    (c0 : Conversation) (hc0 : c0 ∈ l)
    (hty : c0.ctype = ConvType.individual)
    (hid : c0.contact.id = ourId)
    (hexp : hasProfileKeyCredentialExpired now c0.contact = true) :
    (scanConvs now ourId l st none).emitted.filter
      (fun e => decide (e.id = ourId)) = [clearCreds c0.contact] := by
  induction l generalizing st with
  | nil => simp at hc0
  | cons c rest ih =>
    simp only [List.map_cons, List.nodup_cons] at hnd
    rcases List.mem_cons.mp hc0 with rfl | hc0'
    · -- the head is c0 itself: the expired-credential branch fires
      obtain ⟨cc, ct, cms⟩ := c0
      cases hty
      simp only at hid hexp
      simp only [scanConvs, budgetZero, Bool.false_eq_true, ite_false]
      rw [if_pos ⟨hexp, Or.inl hid⟩]
      have htail : (scanConvs now ourId rest
          ⟨cc.id :: st.seen, cc.id :: st.cleared⟩
          (budgetDec none)).emitted.filter
            (fun e => decide (e.id = ourId)) = [] := by
        rw [List.filter_eq_nil_iff]
        intro e he
        simp only [decide_eq_true_eq]
        intro hcon
        obtain ⟨c', hc', -, hid', -, -⟩ := scanConvs_emitted_ourId now ourId
          rest _ _ (List.mem_cons_of_mem _ hour) e he hcon
        refine hnd.1 ?_
        rw [hid, ← hid']
        exact List.mem_map.mpr ⟨c', hc', rfl⟩
      simp only [List.filter_cons]
      split_ifs with hsp
      · rw [htail]
      · exact (hsp (by simp [clearCreds, hid])).elim
    · -- c0 is further down the list
      obtain ⟨cc, ct, cms⟩ := c
      have hcc_ne : cc.id ≠ ourId := by
        intro hcon
        refine hnd.1 ?_
        rw [hcon, ← hid]
        exact List.mem_map.mpr ⟨c0, hc0', rfl⟩
      cases ct with
      | individual =>
        simp only [scanConvs, budgetZero, Bool.false_eq_true, ite_false]
        split_ifs with h1 h2
        · simp only [List.filter_cons]
          split_ifs with hsp
          · exact absurd (by simpa [clearCreds] using hsp) hcc_ne
          · exact ih _ (List.mem_cons_of_mem _ hour) hnd.2
              (fun c' hc' => hnu c' (List.mem_cons_of_mem _ hc')) hc0'
        · simp only [List.filter_cons]
          split_ifs with hsp
          · exact absurd (by simpa using hsp) hcc_ne
          · exact ih _ (List.mem_cons_of_mem _ hour) hnd.2
              (fun c' hc' => hnu c' (List.mem_cons_of_mem _ hc')) hc0'
        · exact ih _ hour hnd.2
            (fun c' hc' => hnu c' (List.mem_cons_of_mem _ hc')) hc0'
      | group =>
        simp only [scanConvs, budgetZero, Bool.false_eq_true, ite_false]
        rw [List.filter_append]
        have hmem : (scanMembers now cms st none).emitted.filter
            (fun e => decide (e.id = ourId)) = [] := by
          rw [List.filter_eq_nil_iff]
          intro e he
          simp only [decide_eq_true_eq]
          intro hcon
          obtain ⟨-, h2, -⟩ := scanMembers_emitted_props now cms st none e he
          exact h2 (hcon ▸ hour)
        rw [hmem, List.nil_append]
        have hour' : ourId ∈ (scanMembers now cms st none).fin.seen := by
          rw [scanMembers_fin_seen]
          exact List.mem_append_right _ hour
        rw [scanMembers_budget_none]
        exact ih _ hour' hnd.2
          (fun c' hc' => hnu c' (List.mem_cons_of_mem _ hc')) hc0'
      | unknown s =>
        rcases hnu ⟨cc, ConvType.unknown s, cms⟩ (List.mem_cons_self _ _) with
          h | h <;> exact absurd h (by simp)

/-- C3: the local identity is never emitted by selection unless its
credential is expired — every emission carrying our id comes from a directly
scanned individual conversation with our id and an expired credential, and is
the credential-cleared record of that conversation (both credential fields
`none`).  Moreover, for a duplicate-free input without unknown kinds that
contains such a conversation `c0`, the generator emits our id exactly once,
as `clearCreds c0.contact`. -/
theorem C3_local_identity (now : Int) (ourId : String)
    (convs : List Conversation) :
    (∀ e ∈ (getFilteredConversations now ourId convs).emitted,
      e.id = ourId →
        ∃ c ∈ convs, c.ctype = ConvType.individual ∧
          c.contact.id = ourId ∧
          hasProfileKeyCredentialExpired now c.contact = true ∧
          e = clearCreds c.contact ∧ e.profileKeyCredential = none ∧
          e.profileKeyCredentialExpiration = none) ∧
      ((convs.map (·.contact.id)).Nodup →
        (∀ c ∈ convs, c.ctype = ConvType.individual ∨
          c.ctype = ConvType.group) →
        ∀ c0 ∈ convs, c0.ctype = ConvType.individual →
          c0.contact.id = ourId →
          hasProfileKeyCredentialExpired now c0.contact = true →
          (getFilteredConversations now ourId convs).emitted.filter
            (fun e => decide (e.id = ourId)) = [clearCreds c0.contact]) := by
  constructor
  · intro e he hid
    obtain ⟨c, hc, h1, h2, h3, h4⟩ := scanConvs_emitted_ourId now ourId
      (sortConversations convs) ⟨[ourId], []⟩ none
      (List.mem_cons_self _ _) e he hid
    refine ⟨c, (sortConversations_perm convs).mem_iff.mp hc, h1, h2, h3, h4,
      ?_, ?_⟩
    · rw [h4]; rfl
    · rw [h4]; rfl
  · intro hnd hnu c0 hc0 hty hid hexp
    have hperm := sortConversations_perm convs
    refine scanConvs_our_filter now ourId (sortConversations convs)
      ⟨[ourId], []⟩ (List.mem_cons_self _ _) ?_ ?_ c0 ?_ hty hid hexp
    · exact ((hperm.map (·.contact.id)).symm).nodup hnd
    · intro c hc
      exact hnu c (hperm.mem_iff.mp hc)
    · exact hperm.mem_iff.mpr hc0

/-- Witness for C3: our conversation with an expired credential among two
conversations; it is emitted exactly once, with cleared credential fields. -/
theorem C3_local_identity_witness :
    ((([⟨⟨"me", some 100, none, some "k", some 0⟩, ConvType.individual, []⟩,
        ⟨⟨"x", some 5, none, none, none⟩, ConvType.individual, []⟩] :
          List Conversation).map (·.contact.id)).Nodup ∧
      hasProfileKeyCredentialExpired 1500
        (⟨"me", some 100, none, some "k", some 0⟩ : Contact) = true) ∧
      (getFilteredConversations 1500 "me"
          [⟨⟨"me", some 100, none, some "k", some 0⟩,
            ConvType.individual, []⟩,
           ⟨⟨"x", some 5, none, none, none⟩,
             ConvType.individual, []⟩]).emitted.filter
        (fun e => decide (e.id = "me")) =
        [clearCreds ⟨"me", some 100, none, some "k", some 0⟩] :=
  ⟨⟨by decide, by decide⟩,
    (C3_local_identity 1500 "me"
        [⟨⟨"me", some 100, none, some "k", some 0⟩, ConvType.individual, []⟩,
         ⟨⟨"x", some 5, none, none, none⟩, ConvType.individual, []⟩]).2
      (by decide) (by decide)
      ⟨⟨"me", some 100, none, some "k", some 0⟩, ConvType.individual, []⟩
      (by decide) rfl rfl (by decide)⟩

/-- The record that the individual branch emits for a scanned conversation:
the credential-cleared contact when the expired-credential branch fires, the
contact itself otherwise. -/
def emittedForm (now : Int) (c : Conversation) : Contact :=
  if hasProfileKeyCredentialExpired now c.contact = true
  then clearCreds c.contact else c.contact

theorem emittedForm_id (now : Int) (c : Conversation) :
    (emittedForm now c).id = c.contact.id := by
  unfold emittedForm
  split_ifs <;> rfl

theorem emittedForm_active_at (now : Int) (c : Conversation) :
    (emittedForm now c).active_at = c.contact.active_at := by
  unfold emittedForm
  split_ifs <;> rfl

/-- When every scanned conversation is an individual one, unseen, and
eligible (expired credential or active-and-not-recently-refreshed), the
`take n` consumer receives exactly the first `n` scanned conversations, in
scan order. -/
theorem scanConvs_all_emit (now : Int) (ourId : String)
    (l : List Conversation) (st : ScanState) (n : Nat)
    (hnd : (l.map (·.contact.id)).Nodup)
    (hty : ∀ c ∈ l, c.ctype = ConvType.individual)
    (hseen : ∀ c ∈ l, c.contact.id ∉ st.seen)
    (helig : ∀ c ∈ l, hasProfileKeyCredentialExpired now c.contact = true ∨
      (isConversationActive now c.contact = true ∧
        hasRefreshedProfileRecently now c.contact = false)) :
    (scanConvs now ourId l st (some n)).emitted =
      (l.take n).map (emittedForm now) := by
  induction l generalizing st n with
  | nil => simp [scanConvs]
  | cons c rest ih =>
    obtain ⟨cc, ct, cms⟩ := c
    have hct : ct = ConvType.individual := hty _ (List.mem_cons_self _ _)
    subst hct
    simp only [List.map_cons, List.nodup_cons] at hnd
    cases n with
    | zero => simp [scanConvs, budgetZero]
    | succ k =>
      have hrest : ∀ st' : ScanState, st'.seen = cc.id :: st.seen →
          (scanConvs now ourId rest st' (some k)).emitted =
            (rest.take k).map (emittedForm now) := by
        intro st' hst'
        refine ih st' k hnd.2
          (fun c' hc' => hty c' (List.mem_cons_of_mem _ hc')) ?_
          (fun c' hc' => helig c' (List.mem_cons_of_mem _ hc'))
        intro c' hc'
        rw [hst']
        intro hcon
        rcases List.mem_cons.mp hcon with h | h
        · exact hnd.1 (h ▸ List.mem_map.mpr ⟨c', hc', rfl⟩)
        · exact hseen c' (List.mem_cons_of_mem _ hc') h
      simp only [scanConvs, budgetZero, Bool.false_eq_true, ite_false,
        budgetDec]
      by_cases hexp : hasProfileKeyCredentialExpired now cc = true
      · rw [if_pos ⟨hexp, Or.inr (hseen _ (List.mem_cons_self _ _))⟩]
        rw [hrest _ rfl]
        simp [emittedForm, hexp]
      · have hprio : ¬(hasProfileKeyCredentialExpired now cc = true ∧
            (cc.id = ourId ∨ cc.id ∉ st.seen)) := fun h => hexp h.1
        rw [if_neg hprio]
        have helig' := helig _ (List.mem_cons_self _ _)
        simp only at helig'
        rcases helig' with h | ⟨ha, hr⟩
        · exact absurd h hexp
        · rw [if_pos ⟨hseen _ (List.mem_cons_self _ _), ha, hr⟩]
          rw [hrest _ rfl]
          simp [emittedForm, hexp]

/-- C4: given 60 individual contacts, all eligible (not the local identity,
active within 30 days, not refreshed within 24 hours) with pairwise distinct
numeric activity timestamps and pairwise distinct ids, candidate selection
emits exactly 50 contacts — the 50 with the smallest (oldest) activity
timestamps: every emitted contact's timestamp is strictly smaller than that
of every non-emitted input contact. -/
theorem C4_sixty_eligible (now : Int) (ourId : String)
    (convs : List Conversation)
    (hlen : convs.length = 60)
    (hty : ∀ c ∈ convs, c.ctype = ConvType.individual)
    (hnotour : ∀ c ∈ convs, c.contact.id ≠ ourId)
    (hnd : (convs.map (·.contact.id)).Nodup)
    (hkeys : (convs.map (·.contact.active_at)).Nodup)
    (hsome : ∀ c ∈ convs, c.contact.active_at ≠ none)
    (hact : ∀ c ∈ convs, isConversationActive now c.contact = true)
    (hrec : ∀ c ∈ convs, hasRefreshedProfileRecently now c.contact = false) :
    (getConversationsToRefresh now ourId convs).emitted.length = 50 ∧
      ((getConversationsToRefresh now ourId convs).emitted.map
        (·.id)).Nodup ∧
      (∀ e ∈ (getConversationsToRefresh now ourId convs).emitted,
        e.id ∈ convs.map (·.contact.id)) ∧
      (∀ e ∈ (getConversationsToRefresh now ourId convs).emitted,
        ∀ x ∈ convs,
          x.contact.id ∉
            (getConversationsToRefresh now ourId convs).emitted.map (·.id) →
          ∃ ke kx : Int, e.active_at = some ke ∧
            x.contact.active_at = some kx ∧ ke < kx) := by
  have hperm := sortConversations_perm convs
  set s := sortConversations convs with hs
  have hmain : (getConversationsToRefresh now ourId convs).emitted =
      (s.take 50).map (emittedForm now) := by
    refine scanConvs_all_emit now ourId s ⟨[ourId], []⟩
      MAX_CONVERSATIONS_TO_REFRESH
      (((hperm.map (·.contact.id)).symm).nodup hnd)
      (fun c hc => hty c (hperm.mem_iff.mp hc)) ?_
      (fun c hc => Or.inr ⟨hact c (hperm.mem_iff.mp hc),
        hrec c (hperm.mem_iff.mp hc)⟩)
    intro c hc
    simp only [ScanState.seen, List.mem_singleton]
    exact hnotour c (hperm.mem_iff.mp hc)
  have hslen : s.length = 60 := hperm.length_eq.trans hlen
  have hids : (getConversationsToRefresh now ourId convs).emitted.map
      (·.id) = (s.take 50).map (·.contact.id) := by
    rw [hmain, List.map_map]
    exact List.map_congr_left fun c _ => emittedForm_id now c
  refine ⟨?_, ?_, ?_, ?_⟩
  · rw [hmain, List.length_map, List.length_take, hslen]
    rfl
  · rw [hids]
    exact (((hperm.map (·.contact.id)).symm).nodup hnd).sublist
      ((List.take_sublist 50 s).map _)
  · intro e he
    rw [hmain] at he
    rcases List.mem_map.mp he with ⟨c, hc, rfl⟩
    rw [emittedForm_id]
    exact List.mem_map.mpr
      ⟨c, hperm.mem_iff.mp ((List.take_sublist 50 s).mem hc), rfl⟩
  · intro e he x hx hxid
    rw [hmain] at he
    rcases List.mem_map.mp he with ⟨c, hc, rfl⟩
    rw [hids] at hxid
    have hxs : x ∈ s := hperm.mem_iff.mpr hx
    have hxdrop : x ∈ s.drop 50 := by
      rcases (List.mem_append.mp
          ((List.take_append_drop 50 s).symm ▸ hxs)) with h | h
      · exact absurd (List.mem_map.mpr ⟨x, h, rfl⟩) hxid
      · exact h
    have hsort : List.Pairwise convLe (s.take 50 ++ s.drop 50) := by
      rw [List.take_append_drop]
      exact sortConversations_sorted convs
    have hle : convLe c x :=
      (List.pairwise_append.mp hsort).2.2 c hc x hxdrop
    obtain ⟨kc, hkc⟩ := Option.ne_none_iff_exists'.mp
      (hsome c (hperm.mem_iff.mp ((List.take_sublist 50 s).mem hc)))
    obtain ⟨kx, hkx⟩ := Option.ne_none_iff_exists'.mp (hsome x hx)
    have hlexy : kc ≤ kx := by
      unfold convLe at hle
      rw [hkc, hkx] at hle
      simpa [activeAtLe] using hle
    have hkeys_s : (s.map (·.contact.active_at)).Nodup :=
      ((hperm.map (·.contact.active_at)).symm).nodup hkeys
    have hsplit : s.map (·.contact.active_at) =
        (s.take 50).map (·.contact.active_at) ++
          (s.drop 50).map (·.contact.active_at) := by
      rw [← List.map_append, List.take_append_drop]
    rw [hsplit] at hkeys_s
    have hdisj := (List.nodup_append.mp hkeys_s).2.2
    have hne : kc ≠ kx := by
      intro heq
      have h1 : x.contact.active_at ∈
          (s.take 50).map (·.contact.active_at) := by
        refine List.mem_map.mpr ⟨c, hc, ?_⟩
        rw [hkc, hkx, heq]
      exact hdisj h1 (List.mem_map.mpr ⟨x, hxdrop, rfl⟩)
    exact ⟨kc, kx, by rw [emittedForm_active_at, hkc], hkx,
      lt_of_le_of_ne hlexy hne⟩

/-- An eligible individual contact used by concrete instances: distinct id,
distinct numeric activity timestamp, never refreshed, no credential. -/
def mkEligible (i : Nat) : Conversation :=
  ⟨⟨"c" ++ toString i, some (1000 + (i : Int)), none, none, none⟩,
    ConvType.individual, []⟩

/-- Sixty pairwise distinct eligible contacts. -/
def sixtyEligible : List Conversation := (List.range 60).map mkEligible

/-- Witness for C4: sixty concrete eligible contacts, of which exactly 50 are
selected. -/
theorem C4_sixty_eligible_witness :
    sixtyEligible.length = 60 ∧
      (getConversationsToRefresh 1500 "me" sixtyEligible).emitted.length =
        50 :=
  ⟨by decide,
    (C4_sixty_eligible 1500 "me" sixtyEligible (by decide) (by decide)
      (by decide) (by decide) (by decide) (by decide) (by decide)
      (by decide)).1⟩

/-- A member loop that emitted nothing left the state untouched. -/
theorem scanMembers_emitted_nil_fin (now : Int) (ms : List Contact)
    (st : ScanState) (b : Option Nat)
    (h : (scanMembers now ms st b).emitted = []) :
    (scanMembers now ms st b).fin = st := by
  have h1 := scanMembers_fin_seen now ms st b
  rw [h] at h1
  simp only [List.map_nil, List.reverse_nil, List.nil_append] at h1
  have h2 := scanMembers_fin_cleared now ms st b
  calc (scanMembers now ms st b).fin
      = ⟨(scanMembers now ms st b).fin.seen,
          (scanMembers now ms st b).fin.cleared⟩ := rfl
    _ = ⟨st.seen, st.cleared⟩ := by rw [h1, h2]
    _ = st := rfl

/-- Truncation lemma for the member loop: if the un-truncated loop emits at
most `n` members, a `take n` consumer receives exactly the same members and
the same final state, with the budget decreased accordingly. -/
theorem scanMembers_cap (now : Int) (ms : List Contact) (st : ScanState)
    (n : Nat)
    (hle : (scanMembers now ms st none).emitted.length ≤ n) :
    scanMembers now ms st (some n) =
      ⟨(scanMembers now ms st none).emitted,
        (scanMembers now ms st none).fin,
        some (n - (scanMembers now ms st none).emitted.length)⟩ := by
  induction ms generalizing st n with
  | nil => simp [scanMembers]
  | cons m rest ih =>
    by_cases hm : m.id ∉ st.seen ∧ hasRefreshedProfileRecently now m = false
    · have e1 : scanMembers now (m :: rest) st none =
          ⟨m :: (scanMembers now rest { st with seen := m.id :: st.seen }
              none).emitted,
            (scanMembers now rest { st with seen := m.id :: st.seen }
              none).fin,
            (scanMembers now rest { st with seen := m.id :: st.seen }
              none).budget⟩ := by
        simp only [scanMembers, budgetZero, Bool.false_eq_true, ite_false,
          budgetDec]
        rw [if_pos hm]
      rw [e1] at hle ⊢
      simp only [List.length_cons] at hle ⊢
      cases n with
      | zero => omega
      | succ k =>
        have e2 : scanMembers now (m :: rest) st (some (k + 1)) =
            ⟨m :: (scanMembers now rest { st with seen := m.id :: st.seen }
                (some k)).emitted,
              (scanMembers now rest { st with seen := m.id :: st.seen }
                (some k)).fin,
              (scanMembers now rest { st with seen := m.id :: st.seen }
                (some k)).budget⟩ := by
          simp only [scanMembers, budgetZero, Bool.false_eq_true, ite_false,
            budgetDec]
          rw [if_pos hm]
        rw [e2, ih { st with seen := m.id :: st.seen } k (by omega)]
        simp only [Nat.succ_sub_succ]
    · have e1 : scanMembers now (m :: rest) st none =
          scanMembers now rest st none := by
        simp only [scanMembers, budgetZero, Bool.false_eq_true, ite_false]
        rw [if_neg hm]
      rw [e1] at hle ⊢
      cases n with
      | zero =>
        have hnil : (scanMembers now rest st none).emitted = [] :=
          List.eq_nil_of_length_eq_zero (Nat.le_zero.mp hle)
        have e2 : scanMembers now (m :: rest) st (some 0) = ⟨[], st, some 0⟩ :=
          by simp [scanMembers, budgetZero]
        rw [e2, hnil, scanMembers_emitted_nil_fin now rest st none hnil]
        rfl
      | succ k =>
        have e2 : scanMembers now (m :: rest) st (some (k + 1)) =
            scanMembers now rest st (some (k + 1)) := by
          simp only [scanMembers, budgetZero, Bool.false_eq_true, ite_false]
          rw [if_neg hm]
        rw [e2]
        exact ih st (k + 1) hle

/-- Truncation lemma for the scan: if the un-truncated generator throws after
emitting fewer than `n` contacts, a `take n` consumer still reaches the
throw and receives the same emissions and state. -/
theorem scanConvs_cap (now : Int) (ourId : String) (l : List Conversation)
    (st : ScanState) (n : Nat)
    (herr : (scanConvs now ourId l st none).errored = true)
    (hlt : (scanConvs now ourId l st none).emitted.length < n) :
    scanConvs now ourId l st (some n) =
      ⟨(scanConvs now ourId l st none).emitted,
        (scanConvs now ourId l st none).fin,
        some (n - (scanConvs now ourId l st none).emitted.length), true⟩ := by
  induction l generalizing st n with
  | nil => simp [scanConvs] at herr
  | cons c rest ih =>
    obtain ⟨cc, ct, cms⟩ := c
    cases ct with
    | individual =>
      by_cases h1 : hasProfileKeyCredentialExpired now cc = true ∧
          (cc.id = ourId ∨ cc.id ∉ st.seen)
      · have e1 : scanConvs now ourId
            (⟨cc, ConvType.individual, cms⟩ :: rest) st none =
            ⟨clearCreds cc :: (scanConvs now ourId rest
                ⟨cc.id :: st.seen, cc.id :: st.cleared⟩ none).emitted,
              (scanConvs now ourId rest
                ⟨cc.id :: st.seen, cc.id :: st.cleared⟩ none).fin,
              (scanConvs now ourId rest
                ⟨cc.id :: st.seen, cc.id :: st.cleared⟩ none).budget,
              (scanConvs now ourId rest
                ⟨cc.id :: st.seen, cc.id :: st.cleared⟩ none).errored⟩ := by
          simp only [scanConvs, budgetZero, Bool.false_eq_true, ite_false,
            budgetDec]
          rw [if_pos h1]
        rw [e1] at herr hlt ⊢
        simp only [List.length_cons] at hlt ⊢
        cases n with
        | zero => omega
        | succ k =>
          have e2 : scanConvs now ourId
              (⟨cc, ConvType.individual, cms⟩ :: rest) st (some (k + 1)) =
              ⟨clearCreds cc :: (scanConvs now ourId rest
                  ⟨cc.id :: st.seen, cc.id :: st.cleared⟩ (some k)).emitted,
                (scanConvs now ourId rest
                  ⟨cc.id :: st.seen, cc.id :: st.cleared⟩ (some k)).fin,
                (scanConvs now ourId rest
                  ⟨cc.id :: st.seen, cc.id :: st.cleared⟩ (some k)).budget,
                (scanConvs now ourId rest
                  ⟨cc.id :: st.seen, cc.id :: st.cleared⟩
                  (some k)).errored⟩ := by
            simp only [scanConvs, budgetZero, Bool.false_eq_true, ite_false,
              budgetDec]
            rw [if_pos h1]
          rw [e2, ih _ k herr (by omega)]
          simp only [Nat.succ_sub_succ]
      · by_cases h2 : cc.id ∉ st.seen ∧ isConversationActive now cc = true ∧
            hasRefreshedProfileRecently now cc = false
        · have e1 : scanConvs now ourId
              (⟨cc, ConvType.individual, cms⟩ :: rest) st none =
              ⟨cc :: (scanConvs now ourId rest
                  { seen := cc.id :: st.seen, cleared := st.cleared }
                  none).emitted,
                (scanConvs now ourId rest
                  { seen := cc.id :: st.seen, cleared := st.cleared }
                  none).fin,
                (scanConvs now ourId rest
                  { seen := cc.id :: st.seen, cleared := st.cleared }
                  none).budget,
                (scanConvs now ourId rest
                  { seen := cc.id :: st.seen, cleared := st.cleared }
                  none).errored⟩ := by
            simp only [scanConvs, budgetZero, Bool.false_eq_true, ite_false,
              budgetDec]
            rw [if_neg h1, if_pos h2]
          rw [e1] at herr hlt ⊢
          simp only [List.length_cons] at hlt ⊢
          cases n with
          | zero => omega
          | succ k =>
            have e2 : scanConvs now ourId
                (⟨cc, ConvType.individual, cms⟩ :: rest) st (some (k + 1)) =
                ⟨cc :: (scanConvs now ourId rest
                    { seen := cc.id :: st.seen, cleared := st.cleared }
                    (some k)).emitted,
                  (scanConvs now ourId rest
                    { seen := cc.id :: st.seen, cleared := st.cleared }
                    (some k)).fin,
                  (scanConvs now ourId rest
                    { seen := cc.id :: st.seen, cleared := st.cleared }
                    (some k)).budget,
                  (scanConvs now ourId rest
                    { seen := cc.id :: st.seen, cleared := st.cleared }
                    (some k)).errored⟩ := by
              simp only [scanConvs, budgetZero, Bool.false_eq_true,
                ite_false, budgetDec]
              rw [if_neg h1, if_pos h2]
            rw [e2, ih _ k herr (by omega)]
            simp only [Nat.succ_sub_succ]
        · have e1 : scanConvs now ourId
              (⟨cc, ConvType.individual, cms⟩ :: rest) st none =
              scanConvs now ourId rest st none := by
            simp only [scanConvs, budgetZero, Bool.false_eq_true, ite_false]
            rw [if_neg h1, if_neg h2]
          rw [e1] at herr hlt ⊢
          cases n with
          | zero => omega
          | succ k =>
            have e2 : scanConvs now ourId
                (⟨cc, ConvType.individual, cms⟩ :: rest) st (some (k + 1)) =
                scanConvs now ourId rest st (some (k + 1)) := by
              simp only [scanConvs, budgetZero, Bool.false_eq_true,
                ite_false]
              rw [if_neg h1, if_neg h2]
            rw [e2]
            exact ih st (k + 1) herr hlt
    | group =>
      have e1 : scanConvs now ourId
          (⟨cc, ConvType.group, cms⟩ :: rest) st none =
          ⟨(scanMembers now cms st none).emitted ++
              (scanConvs now ourId rest (scanMembers now cms st none).fin
                none).emitted,
            (scanConvs now ourId rest (scanMembers now cms st none).fin
              none).fin,
            (scanConvs now ourId rest (scanMembers now cms st none).fin
              none).budget,
            (scanConvs now ourId rest (scanMembers now cms st none).fin
              none).errored⟩ := by
        simp only [scanConvs, budgetZero, Bool.false_eq_true, ite_false]
        rw [scanMembers_budget_none]
      rw [e1] at herr hlt ⊢
      simp only [List.length_append] at hlt ⊢
      cases n with
      | zero => omega
      | succ k =>
        have hmle : (scanMembers now cms st none).emitted.length ≤ k + 1 :=
          by omega
        have e2 : scanConvs now ourId
            (⟨cc, ConvType.group, cms⟩ :: rest) st (some (k + 1)) =
            ⟨(scanMembers now cms st none).emitted ++
                (scanConvs now ourId rest (scanMembers now cms st none).fin
                  (some (k + 1 -
                    (scanMembers now cms st none).emitted.length))).emitted,
              (scanConvs now ourId rest (scanMembers now cms st none).fin
                (some (k + 1 -
                  (scanMembers now cms st none).emitted.length))).fin,
              (scanConvs now ourId rest (scanMembers now cms st none).fin
                (some (k + 1 -
                  (scanMembers now cms st none).emitted.length))).budget,
              (scanConvs now ourId rest (scanMembers now cms st none).fin
                (some (k + 1 -
                  (scanMembers now cms st none).emitted.length))).errored⟩ :=
          by
          simp only [scanConvs, budgetZero, Bool.false_eq_true, ite_false]
          rw [scanMembers_cap now cms st (k + 1) hmle]
        rw [e2, ih _ _ herr (by omega)]
        have harith : k + 1 - (scanMembers now cms st none).emitted.length -
            (scanConvs now ourId rest (scanMembers now cms st none).fin
              none).emitted.length =
            k + 1 - ((scanMembers now cms st none).emitted.length +
              (scanConvs now ourId rest (scanMembers now cms st none).fin
                none).emitted.length) := by omega
        rw [harith]
    | unknown s =>
      have e1 : scanConvs now ourId
          (⟨cc, ConvType.unknown s, cms⟩ :: rest) st none =
          ⟨[], st, none, true⟩ := by
        simp [scanConvs, budgetZero]
      rw [e1] at hlt ⊢
      cases n with
      | zero => simp at hlt
      | succ k =>
        have e2 : scanConvs now ourId
            (⟨cc, ConvType.unknown s, cms⟩ :: rest) st (some (k + 1)) =
            ⟨[], st, some (k + 1), true⟩ := by
          simp [scanConvs, budgetZero]
        rw [e2]
        rfl

/-- The un-truncated generator throws whenever any scanned conversation has an
unknown kind: with no consumer cap, the scan reaches every element. -/
theorem scanConvs_unknown_errors (now : Int) (ourId : String)
    (l : List Conversation) (st : ScanState)
    (h : ∃ c ∈ l, ∃ s, c.ctype = ConvType.unknown s) :
    (scanConvs now ourId l st none).errored = true := by
  induction l generalizing st with
  | nil => simp at h
  | cons c rest ih =>
    obtain ⟨c', hc', s, hs⟩ := h
    obtain ⟨cc, ct, cms⟩ := c
    cases ct with
    | individual =>
      have hrest : ∃ c ∈ rest, ∃ s, c.ctype = ConvType.unknown s := by
        rcases List.mem_cons.mp hc' with rfl | h'
        · simp at hs
        · exact ⟨c', h', s, hs⟩
      simp only [scanConvs, budgetZero, Bool.false_eq_true, ite_false,
        budgetDec]
      split_ifs with h1 h2
      · exact ih _ hrest
      · exact ih _ hrest
      · exact ih _ hrest
    | group =>
      have hrest : ∃ c ∈ rest, ∃ s, c.ctype = ConvType.unknown s := by
        rcases List.mem_cons.mp hc' with rfl | h'
        · simp at hs
        · exact ⟨c', h', s, hs⟩
      simp only [scanConvs, budgetZero, Bool.false_eq_true, ite_false]
      rw [scanMembers_budget_none]
      exact ih _ hrest
    | unknown s' =>
      simp [scanConvs, budgetZero]

/-- C8 (amended): if the scanned set contains a contact of unknown kind and
the scan reaches it before 50 contacts have been emitted (the un-truncated
generator emits fewer than 50 in total), candidate selection raises, the pass
aborts, and the scheduler loop catches the exception, logs it, sleeps the
fixed `MIN_REFRESH_DELAY` (one minute), and continues — it does not
terminate. -/
theorem C8_unknown_kind_amended (now₀ now₁ : Int) (stored : StoredValue)
    (ourId : String) (convs : List Conversation) (fetchOk : Contact → Bool)
    (hready : (timeUntilNextRefresh now₁ stored).fst = 0)
    (hunk : ∃ c ∈ convs, ∃ s, c.ctype = ConvType.unknown s)
    (hfew : (getFilteredConversations now₁ ourId convs).emitted.length <
      MAX_CONVERSATIONS_TO_REFRESH) :
    (getFilteredConversations now₁ ourId convs).errored = true ∧
      (getConversationsToRefresh now₁ ourId convs).errored = true ∧
      startIteration now₀ now₁ stored (some ourId) convs fetchOk =
        ⟨(timeUntilNextRefresh now₀ stored).fst, false,
          some PassResult.errored, true, some MIN_REFRESH_DELAY,
          StoredValue.num now₁, true⟩ := by
  have hunks : ∃ c ∈ sortConversations convs, ∃ s,
      c.ctype = ConvType.unknown s := by
    obtain ⟨c, hc, s, hs⟩ := hunk
    exact ⟨c, (sortConversations_perm convs).mem_iff.mpr hc, s, hs⟩
  have herr_full : (getFilteredConversations now₁ ourId convs).errored =
      true :=
    scanConvs_unknown_errors now₁ ourId (sortConversations convs)
      ⟨[ourId], []⟩ hunks
  have hcap := scanConvs_cap now₁ ourId (sortConversations convs)
    ⟨[ourId], []⟩ MAX_CONVERSATIONS_TO_REFRESH herr_full hfew
  have herr_cap : (getConversationsToRefresh now₁ ourId convs).errored =
      true := by
    show (scanConvs now₁ ourId (sortConversations convs) ⟨[ourId], []⟩
      (some MAX_CONVERSATIONS_TO_REFRESH)).errored = true
    rw [hcap]
  have hrpr : routineProfileRefresh now₁ stored ourId convs fetchOk =
      (StoredValue.num now₁, PassResult.errored) := by
    unfold routineProfileRefresh
    rw [hready]
    simp [herr_cap]
  refine ⟨herr_full, herr_cap, ?_⟩
  unfold startIteration
  simp only [hrpr]

/-- Witness for C8 (amended) at a concrete input: a single unknown-kind
conversation; selection raises and the loop backs off one minute and
continues. -/
theorem C8_unknown_kind_amended_witness :
    ((getFilteredConversations 0 "me"
        [⟨⟨"bad", none, none, none, none⟩,
          ConvType.unknown "story", []⟩]).emitted.length <
      MAX_CONVERSATIONS_TO_REFRESH) ∧
      startIteration 0 0 StoredValue.absent (some "me")
          [⟨⟨"bad", none, none, none, none⟩, ConvType.unknown "story", []⟩]
          (fun _ => false) =
        ⟨0, false, some PassResult.errored, true, some MIN_REFRESH_DELAY,
          StoredValue.num 0, true⟩ :=
  ⟨by decide,
    (C8_unknown_kind_amended 0 0 StoredValue.absent "me"
        [⟨⟨"bad", none, none, none, none⟩, ConvType.unknown "story", []⟩]
        (fun _ => false) rfl
        ⟨⟨⟨"bad", none, none, none, none⟩, ConvType.unknown "story", []⟩,
          List.mem_cons_self _ _, "story", rfl⟩
        (by decide)).2.2⟩

/-- Fifty eligible contacts followed by one unknown-kind conversation whose
missing `active_at` makes it sort last. -/
def fiftyThenUnknown : List Conversation :=
  (List.range 50).map mkEligible ++
    [⟨⟨"bad", none, none, none, none⟩, ConvType.unknown "story", []⟩]

/-- C8 counterexample: the input contains a contact of unknown kind, yet
candidate selection does not raise — the `take 50` consumer stops pulling
after the 50 eligible contacts that sort before the unknown one, so the
generator never reaches it and the pass completes. -/
theorem C8_counterexample :
    (∃ c ∈ fiftyThenUnknown, ∃ s, c.ctype = ConvType.unknown s) ∧
      (getConversationsToRefresh 1500 "me" fiftyThenUnknown).errored =
        false ∧
      (getConversationsToRefresh 1500 "me"
        fiftyThenUnknown).emitted.length = 50 :=
  ⟨⟨⟨⟨"bad", none, none, none, none⟩, ConvType.unknown "story", []⟩,
      by decide, "story", rfl⟩,
    by decide, by decide⟩
